import Mathlib

/-!
Verification of the streaming chat bridge of the boris repository.

The embedding targets `src/app/api/chat/route.ts` (stream decoder and event
sequencer), `src/app/page.tsx` (display-order sorting of message parts),
`src/lib/config.ts` constants, and the tool-enabled route variant
(`stepCountIs(5)` multi-step orchestration).

Modelling conventions:
- JavaScript strings are lists of characters (`JsStr`), so that the
  buffering, trimming and newline-splitting logic of the route is fully
  executable and provable by kernel computation.
- `JSON.parse` is a platform primitive, not repository code; it is modelled
  as a parameter `parse : JsStr → Parsed` classifying a line into the closed
  set of outcomes the route inspects (parse failure, non-object value, or an
  object with the optional `error`, `message.content` and `done` fields).
  JavaScript truthiness of the string fields is modelled explicitly
  (`optTruthy`: absent or empty string is falsy).
- The `ReadableStream` callback of the route is represented by explicit
  recursion over the list of transport reads, with the carry-over buffer
  threaded as state, exactly following the loop at route.ts:124-162.
-/

/-- A JavaScript string, modelled as its list of characters. -/
abbrev JsStr := List Char

/-- Whitespace trimming as performed by `String.prototype.trim`, restricted to
the ASCII whitespace characters that occur in newline-delimited JSON payloads
(space, tab, carriage return, line feed). -/
def trimChars (s : JsStr) : JsStr :=
  ((s.dropWhile Char.isWhitespace).reverse.dropWhile Char.isWhitespace).reverse

/-- `String.prototype.split` with separator `"\n"`, as used at route.ts:132
(`buffer.split('\n')`). Always returns a non-empty list; the last element is
the trailing (possibly empty) segment after the final newline. -/
def splitLines : JsStr → List JsStr
  | [] => [[]]
  | c :: cs =>
    if c = '\n' then [] :: splitLines cs
    else
      match splitLines cs with
      | [] => [[c]]
      | h :: t => (c :: h) :: t

/-- Outcome of `JSON.parse` on one line, as classified by route.ts:89-106:
a thrown parse failure, a value that is not an object (or is `null`), or an
object carrying the optional `error` (string), `message.content` (string)
and `done` (boolean, absent read as `false`) fields. -/
inductive Parsed where
  | failure : Parsed
  | nonObject : Parsed
  | obj (error : Option JsStr) (content : Option JsStr) (done : Bool) : Parsed
deriving DecidableEq, Repr

/-- JavaScript truthiness of an optional string field: truthy exactly when
present and non-empty. -/
def optTruthy : Option JsStr → Bool
  | none => false
  | some s => !s.isEmpty

/-- One event enqueued on the outbound UI protocol stream
(route.ts:83-84, 109-112, 118, 158-159). -/
inductive UIEvent where
  | start (messageId : String)
  | textStart (id : String)
  | textDelta (id : String) (delta : JsStr)
  | error (errorText : JsStr)
  | textEnd (id : String)
  | finish
deriving DecidableEq, Repr

/-- `processLine` of route.ts:89-122: parse one (already trimmed, non-empty)
line, enqueue at most one event, and report whether the stream is logically
finished. An `error` field that is truthy short-circuits the line: the error
event is enqueued and `true` returned without looking at content or `done`.
Otherwise a truthy `message.content` yields a text-delta event, and the
returned flag is `Boolean(chunk.done)`. -/
def processLine (parse : JsStr → Parsed) (tid : String) (line : JsStr) :
    List UIEvent × Bool :=
  match parse line with
  | Parsed.failure => ([], false)
  | Parsed.nonObject => ([], false)
  | Parsed.obj err content done =>
    if optTruthy err then ([UIEvent.error (err.getD [])], true)
    else
      ((if optTruthy content then [UIEvent.textDelta tid (content.getD [])] else []),
        done)

/-- The inner loop of route.ts:135-145 over one batch of complete lines:
trim each line, skip empty ones, run `processLine`, and stop (dropping the
remaining lines of the batch) as soon as a line reports completion. Returns
the enqueued events and the completion flag. -/
def processBatch (parse : JsStr → Parsed) (tid : String) :
    List JsStr → List UIEvent × Bool
  | [] => ([], false)
  | line :: rest =>
    let t := trimChars line
    if t = [] then processBatch parse tid rest
    else
      let p := processLine parse tid t
      if p.2 then p
      else
        let q := processBatch parse tid rest
        (p.1 ++ q.1, q.2)

/-- The outer read loop of route.ts:125-146: append each transport read to the
carry-over buffer, split on newlines, keep the trailing segment as the new
buffer, and process the complete lines; stop early when a batch reports
completion. Returns the events, the completion flag, and the final buffer. -/
def runReads (parse : JsStr → Parsed) (tid : String) :
    List JsStr → JsStr → List UIEvent × Bool × JsStr
  | [], buffer => ([], false, buffer)
  | v :: vs, buffer =>
    let parts := splitLines (buffer ++ v)
    let newBuffer := parts.getLastD []
    let p := processBatch parse tid parts.dropLast
    if p.2 then (p.1, true, newBuffer)
    else
      let q := runReads parse tid vs newBuffer
      (p.1 ++ q.1, q.2.1, q.2.2)

/-- The body events of one streaming call (route.ts:124-153): the read loop,
followed — when the loop finished without a completion signal and the final
carry-over buffer trims to a non-empty line — by processing of that final
line. -/
def decoderBody (parse : JsStr → Parsed) (tid : String) (reads : List JsStr) :
    List UIEvent :=
  let r := runReads parse tid reads []
  let remaining := trimChars r.2.2
  if r.2.1 then r.1
  else if remaining = [] then r.1
  else r.1 ++ (processLine parse tid remaining).1

/-- The full event sequence of one streaming call (route.ts:79-163): `start`
and `text-start` are enqueued up front with the freshly created message and
segment ids, then the decoded body, and the `finally` block unconditionally
closes the message with `text-end` and `finish` before closing the stream. -/
def decoderEvents (parse : JsStr → Parsed) (mid tid : String)
    (reads : List JsStr) : List UIEvent :=
  UIEvent.start mid :: UIEvent.textStart tid ::
    (decoderBody parse tid reads ++ [UIEvent.textEnd tid, UIEvent.finish])

/-- An event admissible strictly between `text-start` and `text-end` of a
streaming call: a text delta carrying the call's segment id, or a
backend-signalled error event. -/
def isBodyEvent (tid : String) (e : UIEvent) : Prop :=
  (∃ s, e = UIEvent.textDelta tid s) ∨ (∃ s, e = UIEvent.error s)

/-- A part of a core chat message, as inspected by `buildMessages`
(route.ts:23-27): a `type` tag and the text payload. -/
structure MsgPart where
  type : String
  text : JsStr
deriving DecidableEq, Repr

/-- A core message of the inbound conversation history (the output of the
`convertToCoreMessages` library call at route.ts:19). -/
structure CoreMessage where
  role : String
  content : List MsgPart
deriving DecidableEq, Repr

/-- The text reduction of one message (route.ts:23-27): keep the `text` parts,
concatenate their payloads, and trim. -/
def textOf (m : CoreMessage) : JsStr :=
  trimChars (((m.content.filter (fun p => p.type == "text")).map MsgPart.text).flatten)

/-- A role/content pair sent to the Ollama backend. -/
structure OMessage where
  role : String
  content : JsStr
deriving DecidableEq, Repr

/-- `buildMessages` of route.ts:18-39: reduce each message to its concatenated
trimmed text and drop the messages whose text is empty. -/
def buildMessages (msgs : List CoreMessage) : List OMessage :=
  msgs.filterMap (fun m =>
    let t := textOf m
    if t = [] then none else some { role := m.role, content := t })

/-- The JSON body POSTed to the backend (route.ts:60-64). The `think` field is
`Option` so that its absence from the serialized body is representable. -/
structure OllamaBody where
  model : String
  messages : List OMessage
  stream : Bool
  think : Option Bool
deriving DecidableEq, Repr

/-- The system prompt constant of route.ts:6. -/
def SYSTEM_PROMPT : JsStr :=
  "You are a helpful assistant and friend named Boris. You were created by Kevin. Keep answers concise and focus on practical guidance. Boris enjoys helping humans and sees its role as an intelligent and kind assistant to the people.".data

/-- The default model constant of route.ts:5. -/
def DEFAULT_MODEL : String := "llama3.2:latest"

/-- The JSON body accepted by the endpoint. The route (route.ts:42)
destructures only `messages` and `model` from it; the `think` field that the
page sends is representable here so that its (non-)forwarding can be stated. -/
structure ChatRequestBody where
  messages : List CoreMessage
  model : Option String
  think : Option Bool

/-- The outbound request body built at route.ts:50-64: the system prompt
prepended to the reduced messages, the (defaulted) model, `stream: true` —
and no `think` field, since route.ts:42 never reads it. -/
def outboundBody (req : ChatRequestBody) : OllamaBody :=
  { model := req.model.getD DEFAULT_MODEL
  , messages := { role := "system", content := SYSTEM_PROMPT } :: buildMessages req.messages
  , stream := true
  , think := none }

/-- The backend's HTTP response as observed by the route: `ok` status flag,
body presence, numeric status, response text, and — when streaming — the
transport reads of the body. -/
structure BackendResponse where
  ok : Bool
  hasBody : Bool
  status : Nat
  text : JsStr
  reads : List JsStr

/-- The fallback error message of route.ts:71 used when the backend's response
text is empty. -/
def fallbackMsg (status : Nat) : JsStr :=
  ("Request to Ollama failed with status " ++ toString status).data

/-- The POST handler of route.ts:41-172, up to the construction of the event
stream: reduce the history (throwing when no text message remains), contact
the backend with the outbound body, check the transport (throwing the response
text, or the status fallback when that text is empty), and otherwise decode
the body reads into the UI event sequence. `Except.error` models a thrown
error: no protocol event is carried. -/
def postModel (parse : JsStr → Parsed) (mid tid : String)
    (req : ChatRequestBody) (respond : OllamaBody → BackendResponse) :
    Except JsStr (List UIEvent) :=
  let msgs := buildMessages req.messages
  if msgs = [] then Except.error "No text messages available for Ollama request.".data
  else
    let resp := respond (outboundBody req)
    if !resp.ok || !resp.hasBody then
      Except.error (if resp.text = [] then fallbackMsg resp.status else resp.text)
    else
      Except.ok (decoderEvents parse mid tid resp.reads)

/-- A rendered message part of page.tsx: its `type` discriminator ("text",
"reasoning", "source-url", "tool-…") and text payload. -/
structure UIPart where
  type : String
  text : JsStr
deriving DecidableEq, Repr

/-- Whether a part is a reasoning part (`part.type === 'reasoning'`). -/
def isReasoning (p : UIPart) : Bool := p.type == "reasoning"

/-- The comparator passed to `message.parts.sort` at page.tsx:135-140:
reasoning before non-reasoning, everything else tied. -/
def partCompare (a b : UIPart) : Int :=
  if isReasoning a && !isReasoning b then -1
  else if !isReasoning a && isReasoning b then 1
  else 0

/-- Stable insertion of an element into an already sorted list: the element is
placed before the first element it does not compare strictly greater than.
Elements that compare equal keep the earlier-inserted one in front, matching
the stability that ECMAScript 2019 requires of `Array.prototype.sort`. -/
def sortInsert (x : UIPart) : List UIPart → List UIPart
  | [] => [x]
  | y :: ys => if partCompare x y ≤ 0 then x :: y :: ys else y :: sortInsert x ys

/-- The parts sort of page.tsx:134-140, modelled as a stable comparison sort
with the source's comparator. -/
def sortParts : List UIPart → List UIPart
  | [] => []
  | x :: xs => sortInsert x (sortParts xs)

/-- One model-generation pass of a tool-enabled turn: the text it produced and
whether it requested tool calls. -/
structure ModelStep where
  text : JsStr
  hasToolCalls : Bool
deriving DecidableEq, Repr

/-- The step bound configured by the tool-enabled route via
`stopWhen: stepCountIs(5)`. -/
def maxToolSteps : Nat := 5

/-- Modelled from the spec: the multi-step tool-orchestration loop executed by
the `streamText` helper of the ai SDK — a dependency whose source is not part
of this repository; the repository only configures it (tool-enabled route,
`stopWhen: stepCountIs(5)`). Per the spec, after a model turn that includes
one or more tool calls the backend is re-invoked with the tool outputs
appended to context, up to the fixed maximum number of steps; exceeding the
bound terminates the turn with the text produced so far, not an error.
`backend k` is the model's output for the `k`-th dispatched step. -/
def runTurnAux (backend : Nat → ModelStep) : Nat → Nat → List ModelStep
  | _, 0 => []
  | k, Nat.succ n =>
    let s := backend k
    if s.hasToolCalls then s :: runTurnAux backend (k + 1) n else [s]

/-- Modelled from the spec: a whole tool-enabled turn, dispatching step 0
first and at most `maxToolSteps` steps in total. -/
def runTurn (backend : Nat → ModelStep) : List ModelStep :=
  runTurnAux backend 0 maxToolSteps

/-- The text a turn terminates with: the concatenation of the dispatched
steps' text, in dispatch order. -/
def turnText (steps : List ModelStep) : JsStr :=
  (steps.map ModelStep.text).flatten

/-- Fixture line `a`: a content chunk carrying "Hel"
(scenario A of the spec). -/
def lineHel : JsStr :=
  "\x7b\"message\":\x7b\"role\":\"assistant\",\"content\":\"Hel\"\x7d,\"done\":false\x7d".data

/-- Fixture line `b`: a content chunk carrying "lo". -/
def lineLo : JsStr :=
  "\x7b\"message\":\x7b\"role\":\"assistant\",\"content\":\"lo\"\x7d,\"done\":false\x7d".data

/-- Fixture line: the normal completion sentinel. -/
def lineDone : JsStr := "\x7b\"done\":true\x7d".data

/-- Fixture line: a backend-signalled error. -/
def lineErr : JsStr := "\x7b\"error\":\"boom\"\x7d".data

/-- Fixture line: an object whose `error` field is set to the empty string and
which also carries content. -/
def lineEmptyErr : JsStr :=
  "\x7b\"error\":\"\",\"message\":\x7b\"content\":\"hi\"\x7d\x7d".data

/-- Fixture line: invalid JSON (scenario B of the spec). -/
def lineBad : JsStr := "\x7b\"message\":".data

/-- Fixture line: a complete content line not followed by a newline, left in
the carry-over buffer at end of stream. -/
def lineTail : JsStr :=
  "\x7b\"message\":\x7b\"content\":\"tail\"\x7d,\"done\":false\x7d".data

/-- The behavior of `JSON.parse` on the concrete fixture lines used in the
examples, matching what `JSON.parse` returns (or throws) on each of these
strings; every other string is treated as a parse failure. -/
def parseFixture (s : JsStr) : Parsed :=
  if s = lineHel then Parsed.obj none (some "Hel".data) false
  else if s = lineLo then Parsed.obj none (some "lo".data) false
  else if s = lineDone then Parsed.obj none none true
  else if s = lineErr then Parsed.obj (some "boom".data) none false
  else if s = lineEmptyErr then Parsed.obj (some []) (some "hi".data) false
  else if s = lineTail then Parsed.obj none (some "tail".data) false
  else Parsed.failure

example : splitLines ("ab\ncd".data) = ["ab".data, "cd".data] := by decide

example : trimChars ("  ab ".data) = "ab".data := by decide

example :
    processBatch parseFixture "t0" [lineHel, lineLo, lineDone]
      = ([UIEvent.textDelta "t0" "Hel".data, UIEvent.textDelta "t0" "lo".data], true) := by
  decide

theorem optTruthy_some (s : JsStr) (h : s ≠ []) : optTruthy (some s) = true := by
  cases s with
  | nil => exact absurd rfl h
  | cons c cs => rfl

theorem processLine_content (parse : JsStr → Parsed) (tid : String) (line c : JsStr)
    (hp : parse line = Parsed.obj none (some c) false) (hc : c ≠ []) :
    processLine parse tid line = ([UIEvent.textDelta tid c], false) := by
  simp [processLine, hp, optTruthy, optTruthy_some c hc, hc]

theorem processLine_done (parse : JsStr → Parsed) (tid : String) (line : JsStr) (d : Bool)
    (hp : parse line = Parsed.obj none none d) :
    processLine parse tid line = ([], d) := by
  simp [processLine, hp, optTruthy]

theorem processLine_error (parse : JsStr → Parsed) (tid : String) (line e : JsStr)
    (content : Option JsStr) (d : Bool)
    (hp : parse line = Parsed.obj (some e) content d) (he : e ≠ []) :
    processLine parse tid line = ([UIEvent.error e], true) := by
  simp [processLine, hp, optTruthy_some e he]

theorem processLine_skip (parse : JsStr → Parsed) (tid : String) (line : JsStr)
    (hp : parse line = Parsed.failure ∨ parse line = Parsed.nonObject) :
    processLine parse tid line = ([], false) := by
  cases hp with
  | inl h => simp [processLine, h]
  | inr h => simp [processLine, h]

theorem partCompare_nonpos_of_reasoning (x y : UIPart) (hx : isReasoning x = true) :
    partCompare x y ≤ 0 := by
  unfold partCompare
  cases hy : isReasoning y <;> simp [hx, hy]

theorem partCompare_nonpos_of_neither (x y : UIPart) (hx : isReasoning x = false)
    (hy : isReasoning y = false) : partCompare x y ≤ 0 := by
  simp [partCompare, hx, hy]

theorem partCompare_pos (x y : UIPart) (hx : isReasoning x = false)
    (hy : isReasoning y = true) : ¬ partCompare x y ≤ 0 := by
  simp [partCompare, hx, hy]

theorem sortInsert_reasoning (x : UIPart) (hx : isReasoning x = true) :
    ∀ l : List UIPart, sortInsert x l = x :: l
  | [] => rfl
  | y :: ys => by
    unfold sortInsert
    rw [if_pos (partCompare_nonpos_of_reasoning x y hx)]

theorem sortInsert_not_reasoning (x : UIPart) (hx : isReasoning x = false) :
    ∀ (R S : List UIPart), (∀ r ∈ R, isReasoning r = true) →
      (∀ s ∈ S, isReasoning s = false) →
      sortInsert x (R ++ S) = R ++ x :: S
  | [], [], _, _ => rfl
  | [], s :: S, _, hS => by
    simp only [List.nil_append, sortInsert]
    rw [if_pos (partCompare_nonpos_of_neither x s hx (hS s (List.mem_cons_self s S)))]
  | r :: R, S, hR, hS => by
    have hr := hR r (List.mem_cons_self r R)
    simp only [List.cons_append, sortInsert, List.append_eq]
    rw [if_neg (partCompare_pos x r hx hr)]
    rw [sortInsert_not_reasoning x hx R S (fun a ha => hR a (List.mem_cons_of_mem r ha)) hS]

/-- C9: for every assistant message, the rendering order produced by the parts
sort of page.tsx:134-140 places every reasoning part before every
non-reasoning (in particular text) part, and parts of the same kind keep
their relative insertion order: the sorted list is exactly the reasoning
parts in insertion order followed by the remaining parts in insertion
order. -/
theorem parts_reasoning_first (l : List UIPart) :
    sortParts l
      = l.filter (fun p => isReasoning p) ++ l.filter (fun p => !isReasoning p) := by
  induction l with
  | nil => rfl
  | cons x xs ih =>
    cases hx : isReasoning x with
    | true =>
      simp only [sortParts, ih]
      rw [sortInsert_reasoning x hx]
      simp [List.filter_cons, hx]
    | false =>
      simp only [sortParts, ih]
      rw [sortInsert_not_reasoning x hx _ _
        (fun r hr => by simpa using (List.mem_filter.mp hr).2)
        (fun s hs => by simpa using (List.mem_filter.mp hs).2)]
      simp [List.filter_cons, hx]

theorem runTurnAux_spec (backend : Nat → ModelStep) (n : Nat) :
    ∀ k, ∃ m, m ≤ n ∧
      runTurnAux backend k n = (List.range m).map (fun i => backend (k + i)) := by
  induction n with
  | zero =>
    intro k
    exact ⟨0, Nat.le_refl 0, rfl⟩
  | succ n ih =>
    intro k
    by_cases h : (backend k).hasToolCalls
    · obtain ⟨m, hm, hrec⟩ := ih (k + 1)
      refine ⟨m + 1, by omega, ?_⟩
      simp only [runTurnAux, h, if_true]
      rw [hrec, List.range_succ_eq_map]
      simp only [List.map_cons, List.map_map]
      refine congrArg₂ List.cons (by simp) (List.map_congr_left ?_)
      intro i _
      simp only [Function.comp_apply]
      congr 1
      omega
    · refine ⟨1, by omega, ?_⟩
      simp [runTurnAux, h, List.range_succ]

theorem runTurnAux_full (backend : Nat → ModelStep)
    (hall : ∀ k, (backend k).hasToolCalls = true) (n : Nat) :
    ∀ k, (runTurnAux backend k n).length = n := by
  induction n with
  | zero => intro k; rfl
  | succ n ih =>
    intro k
    simp [runTurnAux, hall k, ih (k + 1)]

/-- C7: for every tool-enabled turn, the multi-step orchestration loop
dispatches at most `maxToolSteps = 5` backend steps: the dispatched steps are
exactly `backend 0, …, backend (m-1)` for some `m ≤ 5`, so a 6th step
(`backend 5`) is never dispatched; and when every step requests tool calls
(scenario C), exactly 5 steps are dispatched, the turn terminating with the
text produced so far (`turnText`) rather than an error. -/
theorem tool_loop_bounded (backend : Nat → ModelStep) :
    (∃ m, m ≤ maxToolSteps ∧ runTurn backend = (List.range m).map backend) ∧
      (runTurn backend).length ≤ maxToolSteps ∧
      ((∀ k, (backend k).hasToolCalls = true) →
        (runTurn backend).length = maxToolSteps) := by
  obtain ⟨m, hm, hrec⟩ := runTurnAux_spec backend maxToolSteps 0
  have hzero : runTurn backend = (List.range m).map backend := by
    rw [runTurn, hrec]
    exact List.map_congr_left (fun i _ => by simp)
  refine ⟨⟨m, hm, hzero⟩, ?_, ?_⟩
  · rw [hzero]
    simpa using hm
  · intro hall
    exact runTurnAux_full backend hall maxToolSteps 0

theorem tool_loop_bounded_witness :
    (runTurn (fun _ => { text := "s".data, hasToolCalls := true })).length
      = maxToolSteps :=
  (tool_loop_bounded (fun _ => { text := "s".data, hasToolCalls := true })).2.2
    (fun _ => rfl)

theorem processBatch_flag_false (parse : JsStr → Parsed) (tid : String)
    (pre : List JsStr)
    (h : ∀ l ∈ pre, trimChars l ≠ [] → (processLine parse tid (trimChars l)).2 = false) :
    (processBatch parse tid pre).2 = false := by
  induction pre with
  | nil => rfl
  | cons line rest ih =>
    have ihr := ih (fun l hl => h l (List.mem_cons_of_mem _ hl))
    by_cases ht : trimChars line = []
    · simpa [processBatch, ht] using ihr
    · have hf := h line (List.mem_cons_self _ _) ht
      simp [processBatch, ht, hf, ihr]

theorem processBatch_append (parse : JsStr → Parsed) (tid : String)
    (pre post : List JsStr) (h : (processBatch parse tid pre).2 = false) :
    processBatch parse tid (pre ++ post)
      = ((processBatch parse tid pre).1 ++ (processBatch parse tid post).1,
         (processBatch parse tid post).2) := by
  induction pre with
  | nil => simp [processBatch]
  | cons line rest ih =>
    by_cases ht : trimChars line = []
    · rw [processBatch] at h
      simp only [ht, if_pos] at h
      simp only [List.cons_append, processBatch, ht, if_pos]
      simpa [processBatch, ht] using ih h
    · by_cases hp2 : (processLine parse tid (trimChars line)).2 = true
      · exfalso
        rw [processBatch] at h
        simp [ht, hp2] at h
      · rw [processBatch] at h
        simp only [ht, if_neg, hp2] at h
        simp only [List.cons_append, processBatch, ht]
        simp [hp2, ih h, processBatch, List.append_assoc]

/-- C1: for every well-formed batch of lines whose parsed objects carry
non-empty `message.content`, followed by one line parsing to `done: true` and
then arbitrary further lines, the decoder emits exactly one role-content
delta per content line, carrying that line's content substring in input
order, then signals completion (flag `true`), processing nothing after the
`done` line; and a parsed line whose `message.content` is absent or empty
emits no content chunk. -/
theorem decoder_content_then_done (parse : JsStr → Parsed) (tid : String)
    (lines rest : List JsStr) (cs : List JsStr) (dline : JsStr)
    (hl : List.Forall₂ (fun l c =>
        trimChars l ≠ [] ∧ parse (trimChars l) = Parsed.obj none (some c) false ∧ c ≠ [])
      lines cs)
    (hd : trimChars dline ≠ [])
    (hdp : parse (trimChars dline) = Parsed.obj none none true) :
    processBatch parse tid (lines ++ dline :: rest)
        = (cs.map (fun c => UIEvent.textDelta tid c), true) ∧
      (∀ l d, parse (trimChars l) = Parsed.obj none none d →
        (processLine parse tid (trimChars l)).1 = []) ∧
      (∀ l d, parse (trimChars l) = Parsed.obj none (some []) d →
        (processLine parse tid (trimChars l)).1 = []) := by
  refine ⟨?_, ?_, ?_⟩
  · induction hl with
    | nil =>
      simp only [List.nil_append, List.map_nil]
      simp [processBatch, hd, processLine_done parse tid _ true hdp]
    | cons h₁ h₂ ih =>
      obtain ⟨ht, hp, hc⟩ := h₁
      simp only [List.cons_append, List.map_cons]
      simp [processBatch, ht, processLine_content parse tid _ _ hp hc, ih]
  · intro l d hp
    rw [processLine_done parse tid _ d hp]
  · intro l d hp
    simp [processLine, hp, optTruthy]

/-- C2 (amended): for every input stream of the form
`pre ++ errLine :: rest` where no line of `pre` signals completion or error,
and `errLine` parses to an object whose `error` field is a non-empty string,
the decoder emits all chunks for the preceding lines, then exactly one error
chunk carrying that string, and nothing after it: the error short-circuits
the line (any `content` or `done` on the same line is ignored) and the
remaining lines `rest` are never processed. -/
theorem decoder_error_terminates (parse : JsStr → Parsed) (tid : String)
    (pre rest : List JsStr) (errLine e : JsStr) (content : Option JsStr) (d : Bool)
    (hpre : ∀ l ∈ pre, trimChars l ≠ [] → (processLine parse tid (trimChars l)).2 = false)
    (ht : trimChars errLine ≠ [])
    (hp : parse (trimChars errLine) = Parsed.obj (some e) content d)
    (he : e ≠ []) :
    processBatch parse tid (pre ++ errLine :: rest)
      = ((processBatch parse tid pre).1 ++ [UIEvent.error e], true) := by
  have hflag := processBatch_flag_false parse tid pre hpre
  rw [processBatch_append parse tid pre (errLine :: rest) hflag]
  have herr : processBatch parse tid (errLine :: rest) = ([UIEvent.error e], true) := by
    simp [processBatch, ht, processLine_error parse tid _ e content d hp he]
  rw [herr]

/-- C6: a line that fails JSON parsing (or parses to a non-object value) is
skipped without emitting a content chunk and without terminating the stream:
the decoded output of `pre ++ bad :: post` is identical — events and
completion flag — to that of `pre ++ post`. -/
theorem decoder_skips_unparseable (parse : JsStr → Parsed) (tid : String)
    (pre post : List JsStr) (bad : JsStr)
    (hbad : parse (trimChars bad) = Parsed.failure ∨
      parse (trimChars bad) = Parsed.nonObject) :
    processBatch parse tid (pre ++ bad :: post) = processBatch parse tid (pre ++ post) := by
  induction pre with
  | nil =>
    by_cases ht : trimChars bad = []
    · simp [processBatch, ht]
    · simp [processBatch, ht, processLine_skip parse tid _ hbad]
  | cons line rest ih =>
    simp only [List.cons_append]
    by_cases ht : trimChars line = []
    · simp [processBatch, ht, ih]
    · by_cases hp2 : (processLine parse tid (trimChars line)).2 = true
      · simp [processBatch, ht, hp2]
      · simp [processBatch, ht, hp2, ih]

theorem processLine_body_events (parse : JsStr → Parsed) (tid : String) (line : JsStr) :
    ∀ e ∈ (processLine parse tid line).1, isBodyEvent tid e := by
  intro e he
  unfold processLine at he
  cases hp : parse line with
  | failure => rw [hp] at he; simp at he
  | nonObject => rw [hp] at he; simp at he
  | obj err content done =>
    rw [hp] at he
    by_cases h1 : optTruthy err = true
    · simp [h1] at he
      exact Or.inr ⟨_, he⟩
    · simp only [h1, Bool.false_eq_true, if_false, Bool.not_eq_true] at he
      by_cases h2 : optTruthy content = true
      · simp [h1, h2] at he
        exact Or.inl ⟨_, he⟩
      · simp [h1, h2] at he

theorem processBatch_body_events (parse : JsStr → Parsed) (tid : String) :
    ∀ lines, ∀ e ∈ (processBatch parse tid lines).1, isBodyEvent tid e := by
  intro lines
  induction lines with
  | nil => intro e he; simp [processBatch] at he
  | cons line rest ih =>
    intro e he
    by_cases ht : trimChars line = []
    · rw [processBatch] at he
      simp only [ht, if_pos] at he
      exact ih e he
    · by_cases hp2 : (processLine parse tid (trimChars line)).2 = true
      · rw [processBatch] at he
        simp only [ht, hp2] at he
        simp at he
        exact processLine_body_events parse tid _ e he
      · rw [processBatch] at he
        simp only [ht, hp2] at he
        simp at he
        cases he with
        | inl h => exact processLine_body_events parse tid _ e h
        | inr h => exact ih e h

theorem runReads_body_events (parse : JsStr → Parsed) (tid : String) :
    ∀ reads buffer, ∀ e ∈ (runReads parse tid reads buffer).1, isBodyEvent tid e := by
  intro reads
  induction reads with
  | nil => intro buffer e he; simp [runReads] at he
  | cons v vs ih =>
    intro buffer e he
    rw [runReads] at he
    by_cases hp2 : (processBatch parse tid
        (splitLines (buffer ++ v)).dropLast).2 = true
    · simp only [hp2, if_pos] at he
      exact processBatch_body_events parse tid _ e he
    · simp only [hp2] at he
      simp at he
      cases he with
      | inl h => exact processBatch_body_events parse tid _ e h
      | inr h => exact ih _ e h

theorem decoderBody_body_events (parse : JsStr → Parsed) (tid : String)
    (reads : List JsStr) :
    ∀ e ∈ decoderBody parse tid reads, isBodyEvent tid e := by
  intro e he
  unfold decoderBody at he
  by_cases h1 : (runReads parse tid reads []).2.1 = true
  · simp only [h1, if_pos] at he
    exact runReads_body_events parse tid _ _ e he
  · simp only [h1] at he
    by_cases h2 : trimChars (runReads parse tid reads []).2.2 = []
    · simp only [h2, if_pos, if_neg] at he
      simp at he
      exact runReads_body_events parse tid _ _ e he
    · simp only [h2] at he
      simp at he
      cases he with
      | inl h => exact runReads_body_events parse tid _ _ e h
      | inr h => exact processLine_body_events parse tid _ e h

/-- C4: every streaming call that reaches the decoder emits, per message,
exactly one `start` (first, with the message id), then exactly one
`text-start` (with the segment id), then a body consisting only of
`text-delta` events — each carrying that same segment id — and
backend-signalled error events, then exactly one `text-end`, then exactly one
`finish`: no listed event appears out of this order. -/
theorem decoder_event_order (parse : JsStr → Parsed) (mid tid : String)
    (reads : List JsStr) :
    ∃ body : List UIEvent,
      decoderEvents parse mid tid reads
          = UIEvent.start mid :: UIEvent.textStart tid ::
              (body ++ [UIEvent.textEnd tid, UIEvent.finish]) ∧
        ∀ e ∈ body, isBodyEvent tid e :=
  ⟨decoderBody parse tid reads, rfl, decoderBody_body_events parse tid reads⟩

theorem decoder_event_order_witness :
    ∃ body : List UIEvent,
      decoderEvents parseFixture "m0" "t0" [lineHel]
          = UIEvent.start "m0" :: UIEvent.textStart "t0" ::
              (body ++ [UIEvent.textEnd "t0", UIEvent.finish]) ∧
        ∀ e ∈ body, isBodyEvent "t0" e :=
  decoder_event_order parseFixture "m0" "t0" [lineHel]

/-- C3: when the read loop ends (upstream closed) without any completion or
error ever being signalled, the decoder terminates cleanly with implicit
completion: the final carry-over buffer, after trimming, is still parsed and
processed as a line, and the event stream is properly closed by `text-end`
and `finish` — no failure is raised. -/
theorem decoder_implicit_completion (parse : JsStr → Parsed) (mid tid : String)
    (reads : List JsStr) (evs : List UIEvent) (buf : JsStr)
    (h : runReads parse tid reads [] = (evs, false, buf))
    (hbuf : trimChars buf ≠ []) :
    decoderEvents parse mid tid reads
      = UIEvent.start mid :: UIEvent.textStart tid ::
          (evs ++ (processLine parse tid (trimChars buf)).1
            ++ [UIEvent.textEnd tid, UIEvent.finish]) := by
  unfold decoderEvents decoderBody
  rw [h]
  simp [hbuf, List.append_assoc]

/-- C5: for every call where the history reduction is non-empty and the
backend response has a non-success status or a missing body, the route throws
before any protocol event is emitted — the result is `Except.error`, carrying
no events — and the thrown message is the backend's response text, or the
status-describing fallback when that text is empty. -/
theorem transport_error_thrown (parse : JsStr → Parsed) (mid tid : String)
    (req : ChatRequestBody) (respond : OllamaBody → BackendResponse)
    (hne : buildMessages req.messages ≠ [])
    (hr : (respond (outboundBody req)).ok = false ∨
      (respond (outboundBody req)).hasBody = false) :
    postModel parse mid tid req respond
      = Except.error (if (respond (outboundBody req)).text = []
          then fallbackMsg (respond (outboundBody req)).status
          else (respond (outboundBody req)).text) := by
  unfold postModel
  rw [if_neg hne]
  cases hr with
  | inl h => simp [h]
  | inr h => simp [h]

theorem buildMessages_nil_of_empty (msgs : List CoreMessage)
    (h : ∀ m ∈ msgs, textOf m = []) : buildMessages msgs = [] := by
  unfold buildMessages
  rw [List.filterMap_eq_nil_iff]
  intro a ha
  simp [h a ha]

/-- C10: for every request whose conversation history, reduced message by
message to concatenated trimmed text, contains no non-empty text, the route
throws `No text messages available for Ollama request.` before issuing any
request to the backend: the result is that error for every backend responder,
so the backend is never contacted and no event is emitted. -/
theorem empty_history_throws (parse : JsStr → Parsed) (mid tid : String)
    (req : ChatRequestBody) (respond respond2 : OllamaBody → BackendResponse)
    (h : ∀ m ∈ req.messages, textOf m = []) :
    postModel parse mid tid req respond
        = Except.error "No text messages available for Ollama request.".data ∧
      postModel parse mid tid req respond
        = postModel parse mid tid req respond2 := by
  have hb := buildMessages_nil_of_empty req.messages h
  constructor
  · unfold postModel
    rw [hb]
    rfl
  · unfold postModel
    rw [hb]
    rfl

/-- C8 (amended): for every call, the outbound HTTP POST body sent to the
backend has shape `\x7b model, messages, stream: true \x7d` — the system
prompt followed by the reduced role-plus-plain-text-content pairs, each with
non-empty content — and the `think` field is never included, even when the
endpoint's request body supplies it (route.ts:42 never reads it). -/
theorem outbound_body_shape (req : ChatRequestBody) :
    (outboundBody req).stream = true ∧
      (outboundBody req).think = none ∧
      (outboundBody req).model = req.model.getD DEFAULT_MODEL ∧
      (outboundBody req).messages
          = { role := "system", content := SYSTEM_PROMPT } :: buildMessages req.messages ∧
      ∀ m ∈ buildMessages req.messages, m.content ≠ [] := by
  refine ⟨rfl, rfl, rfl, rfl, ?_⟩
  intro m hm
  unfold buildMessages at hm
  obtain ⟨a, _, ha⟩ := List.mem_filterMap.mp hm
  by_cases h : textOf a = []
  · simp [h] at ha
  · simp only [h, if_neg] at ha
    injection ha with ha2
    rw [← ha2]
    exact h

/-- C8 counterexample: a request that supplies `think: true` in its body,
whose outbound request nevertheless carries no `think` field — refuting the
claim that `think` is included when the endpoint's request body supplies
it. -/
theorem outbound_think_dropped :
    (outboundBody
        { messages := [{ role := "user", content := [{ type := "text", text := "hello".data }] }]
        , model := none
        , think := some true }).think = none := rfl

theorem decoder_content_then_done_witness :
    processBatch parseFixture "t0" ([lineHel, lineLo] ++ lineDone :: [])
      = (["Hel".data, "lo".data].map (fun c => UIEvent.textDelta "t0" c), true) :=
  (decoder_content_then_done parseFixture "t0" [lineHel, lineLo] []
    ["Hel".data, "lo".data] lineDone
    (List.Forall₂.cons (by decide) (List.Forall₂.cons (by decide) List.Forall₂.nil))
    (by decide) (by decide)).1

theorem decoder_error_terminates_witness :
    processBatch parseFixture "t0" ([lineHel] ++ lineErr :: [lineLo])
      = ((processBatch parseFixture "t0" [lineHel]).1 ++ [UIEvent.error "boom".data],
         true) :=
  decoder_error_terminates parseFixture "t0" [lineHel] [lineLo] lineErr
    ("boom".data) none false (by decide) (by decide) (by decide) (by decide)

/-- C2 counterexample to the claim as stated: (a) a line whose parsed object
has the `error` field set — to the empty string — and which also carries
content, on which the decoder emits a role-content delta and no error chunk,
and does not terminate (empty-string `error` is falsy, so it does not take
precedence); (b) a stream containing an error line preceded by a `done` line,
for which no error chunk is ever emitted because processing stopped at the
`done` line. -/
theorem decoder_error_field_set_counterexample :
    (parseFixture (trimChars lineEmptyErr)
          = Parsed.obj (some []) (some ("hi".data)) false ∧
        processBatch parseFixture "t0" [lineEmptyErr]
          = ([UIEvent.textDelta "t0" ("hi".data)], false)) ∧
      (parseFixture (trimChars lineErr)
          = Parsed.obj (some ("boom".data)) none false ∧
        processBatch parseFixture "t0" [lineDone, lineErr] = ([], true)) := by
  decide

theorem decoder_implicit_completion_witness :
    decoderEvents parseFixture "m0" "t0" [lineTail]
      = [UIEvent.start "m0", UIEvent.textStart "t0",
          UIEvent.textDelta "t0" ("tail".data), UIEvent.textEnd "t0",
          UIEvent.finish] := by
  rw [decoder_implicit_completion parseFixture "m0" "t0" [lineTail] [] lineTail
    (by decide) (by decide)]
  decide

theorem decoder_skips_unparseable_witness :
    processBatch parseFixture "t0" ([lineHel] ++ lineBad :: [lineLo, lineDone])
      = processBatch parseFixture "t0" ([lineHel] ++ [lineLo, lineDone]) :=
  decoder_skips_unparseable parseFixture "t0" [lineHel] [lineLo, lineDone] lineBad
    (Or.inl (by decide))

theorem transport_error_thrown_witness :
    postModel parseFixture "m0" "t0"
        { messages := [{ role := "user", content := [{ type := "text", text := "hi".data }] }]
        , model := none, think := none }
        (fun _ => { ok := false, hasBody := true, status := 500, text := "boom".data, reads := [] })
      = Except.error ("boom".data) := by
  rw [transport_error_thrown parseFixture "m0" "t0"
    { messages := [{ role := "user", content := [{ type := "text", text := "hi".data }] }]
    , model := none, think := none }
    (fun _ => { ok := false, hasBody := true, status := 500, text := "boom".data, reads := [] })
    (by decide) (Or.inl rfl)]
  rfl

theorem outbound_body_shape_witness :
    (outboundBody
        { messages := [{ role := "user", content := [{ type := "text", text := "hi".data }] }]
        , model := some "qwen3:latest", think := none }).think = none :=
  (outbound_body_shape
    { messages := [{ role := "user", content := [{ type := "text", text := "hi".data }] }]
    , model := some "qwen3:latest", think := none }).2.1

theorem empty_history_throws_witness :
    postModel parseFixture "m0" "t0"
        { messages := [{ role := "user", content := [{ type := "text", text := "   ".data }] }]
        , model := none, think := none }
        (fun _ => { ok := true, hasBody := true, status := 200, text := [], reads := [] })
      = Except.error "No text messages available for Ollama request.".data :=
  (empty_history_throws parseFixture "m0" "t0"
    { messages := [{ role := "user", content := [{ type := "text", text := "   ".data }] }]
    , model := none, think := none }
    (fun _ => { ok := true, hasBody := true, status := 200, text := [], reads := [] })
    (fun _ => { ok := true, hasBody := true, status := 200, text := [], reads := [] })
    (by decide)).1
